/-
Verification of the video-inference pipeline consumer/dispatcher
(`src/services/consumer/consumer.py`) and inference service
(`src/services/inference/main.py`) against its specification.

The Python code is shallowly embedded: pure fragments become Lean
functions, the stateful dispatcher becomes an explicit state machine
driven by events (record received, submission completed, idle tick),
and external effects (HTTP calls, S3 uploads, the YOLO model) become
oracles passed in as function arguments.  Wall-clock instants are
modelled as integers (seconds); Python float truthiness quirks are
carried over explicitly where the code relies on them.
-/
import Mathlib

namespace VideoPipeline

/-! ## Data model

`FrameMsg` embeds the parsed Kafka record handled by the consumer
(fields of the JSON payload that the consumer actually reads).  -/

structure FrameMsg where
  stream_id : String
  frame_number : Nat
  frame_data : String
  timestamp : Option String
  deriving Repr, DecidableEq

/-- `BoundingBox` as in both services' pydantic models; the float
coordinates are embedded as integers since no claim depends on their
arithmetic. -/
structure BoundingBox where
  x1 : Int
  y1 : Int
  x2 : Int
  y2 : Int
  confidence : Int
  class_id : Nat
  class_name : String
  deriving Repr, DecidableEq

structure FrameResult where
  frame_number : Nat
  detections : List BoundingBox
  inference_time_ms : Nat
  deriving Repr, DecidableEq

structure InferenceResponse where
  stream_id : String
  results : List FrameResult
  total_frames : Nat
  total_detections : Nat
  total_inference_time_ms : Nat
  deriving Repr, DecidableEq

/-- Consumer settings relevant to the claims (`Settings` in
consumer.py): `batch_size` defaults to 25, `batch_timeout_seconds`
defaults to 5; `s3_folder` embeds the source's S3 key-folder setting
(the path segment that the upload key starts with, default
"annotated"). -/
structure ConsumerSettings where
  batch_size : Nat := 25
  batch_timeout_seconds : Int := 5
  s3_folder : String := "annotated"
  s3_bucket : String := "video-pipeline-output"
  deriving Repr, DecidableEq

/-! ## 4.1 Batch window trigger — `FrameProcessor.should_process_batch`

```python
def should_process_batch(self, topic):
    batch = self.batches[topic]
    batch_start_time = self.batch_start_times[topic]
    if len(batch) >= settings.batch_size:
        return True
    if batch_start_time and batch:
        elapsed = time.time() - batch_start_time
        if elapsed >= settings.batch_timeout_seconds:
            return True
    return False
```

`batch_start_time and batch` uses Python truthiness: `None` and the
float `0.0` are both falsy, as is the empty list.  The embedding keeps
the `t ≠ 0` test so that the quirk is visible. -/

def should_process_batch (cfg : ConsumerSettings) (now : Int)
    (batch : List FrameMsg) (batch_start_time : Option Int) : Bool :=
  if cfg.batch_size ≤ batch.length then
    true
  else
    match batch_start_time with
    | none => false
    | some t =>
        if t ≠ 0 ∧ batch ≠ [] then
          decide (cfg.batch_timeout_seconds ≤ now - t)
        else
          false

/-! ## 4.4 Inference client chunking — `FrameProcessor.call_inference_service`

```python
max_chunk_size = 25
results = []
for i in range(0, len(batch), max_chunk_size):
    chunk = batch[i:i + max_chunk_size]
    response = self.call_inference_service_chunk(chunk, stream_id)
    results.append((chunk, response))
```
-/

/-- Structural worker for `chunkList`: `fuel` bounds the recursion
depth (any `fuel ≥ l.length` gives the same result, see
`chunkListAux_congr`), keeping the definition kernel-reducible. -/
def chunkListAux (size : Nat) : Nat → List FrameMsg → List (List FrameMsg)
  | _, [] => []
  | 0, _ :: _ => []
  | fuel + 1, x :: xs =>
      (x :: xs.take (size - 1)) ::
        chunkListAux size fuel (xs.drop (size - 1))

/-- The successive slices `batch[i:i+size]` for `i = 0, size, 2*size, …`
(empty batch yields no chunks, mirroring the early `return []`).  Each
step peels one element off explicitly so the recursion is total for
every `size`; for `0 < size` this is exactly slicing by `size` (Python
raises on a zero step, so `size = 0` is outside the embedded domain),
see `chunkList_cons_eq`. -/
def chunkList (size : Nat) (l : List FrameMsg) : List (List FrameMsg) :=
  chunkListAux size l.length l

/-- `call_inference_service`, with the HTTP round trip abstracted by the
oracle `respond`: it returns the list of `(chunk, response)` pairs in
chunk order. -/
def call_inference_service (respond : List FrameMsg → InferenceResponse)
    (batch : List FrameMsg) : List (List FrameMsg × InferenceResponse) :=
  (chunkList 25 batch).map (fun c => (c, respond c))

/-- The detection/inference-time accumulation of `process_batch`:
`total_detections += r.total_detections` and
`total_inference_time += r.total_inference_time_ms` over the chunk
results in order. -/
def sumChunkDetections (rs : List (List FrameMsg × InferenceResponse)) : Nat :=
  rs.foldl (fun acc cr => acc + cr.2.total_detections) 0

def sumChunkInferenceTime (rs : List (List FrameMsg × InferenceResponse)) : Nat :=
  rs.foldl (fun acc cr => acc + cr.2.total_inference_time_ms) 0

/-! ## Per-key dispatcher state machine

The poll loop (`FrameProcessor.start`, lines 525–563), submission
(`submit_batch_for_processing`, lines 459–478), idle-tick flush
(`check_and_submit_timeouts`, lines 480–484) and the worker's `finally`
clause (`process_batch`, lines 440–442) touch, for a fixed topic, the
state `batches[topic]`, `batch_start_times[topic]` and
`pending_batches[topic]`.  `KeyState` embeds that per-topic state; the
ghost fields `submitted`, `dropped` and `inFlight` record the history
(windows handed to the pool in order, records skipped by the
`if not self.pending_batches[topic]` guard, and the number of
concurrently active submissions as the spec's instrumentation would
count them). -/

structure KeyState where
  batch : List FrameMsg
  batchStart : Option Int
  pending : Bool
  submitted : List (List FrameMsg)
  dropped : List FrameMsg
  inFlight : Nat
  deriving Repr, DecidableEq

def initKeyState : KeyState :=
  { batch := [], batchStart := none, pending := false,
    submitted := [], dropped := [], inFlight := 0 }

/-- `submit_batch_for_processing` (consumer.py lines 459–478): return
immediately if the topic already has a pending batch; return if the
batch is empty; otherwise set the pending flag, clear the window and
its start time, and hand the window to the pool. -/
def submit_batch_for_processing (s : KeyState) : KeyState :=
  if s.pending then s
  else if s.batch = [] then s
  else
    { s with pending := true, batch := [], batchStart := none,
             submitted := s.submitted ++ [s.batch],
             inFlight := s.inFlight + 1 }

/-- Poll-loop handling of one parsed record (consumer.py lines
555–563): records arriving while the topic's pending flag is set are
not appended anywhere (ghost-tracked in `dropped`); otherwise the start
time is stamped on an empty window, the record is appended, and the
trigger is re-evaluated. -/
def handleRecord (cfg : ConsumerSettings) (now : Int) (msg : FrameMsg)
    (s : KeyState) : KeyState :=
  if s.pending then
    { s with dropped := s.dropped ++ [msg] }
  else
    let start := if s.batch = [] then some now else s.batchStart
    let s' := { s with batch := s.batch ++ [msg], batchStart := start }
    if should_process_batch cfg now s'.batch s'.batchStart then
      submit_batch_for_processing s'
    else s'

/-- One topic's slice of `check_and_submit_timeouts` (consumer.py lines
480–484), run on every idle poll tick. -/
def handleTick (cfg : ConsumerSettings) (now : Int) (s : KeyState) : KeyState :=
  if should_process_batch cfg now s.batch s.batchStart ∧ s.batch ≠ [] then
    submit_batch_for_processing s
  else s

/-- The worker's `finally` clause (consumer.py lines 440–442): whatever
the outcome, the topic's pending flag is cleared when the submission
finishes. -/
def handleComplete (s : KeyState) : KeyState :=
  { s with pending := false, inFlight := s.inFlight - 1 }

inductive KeyEvent where
  | recv (now : Int) (msg : FrameMsg)
  | tick (now : Int)
  | complete
  deriving Repr, DecidableEq

def keyStep (cfg : ConsumerSettings) (s : KeyState) : KeyEvent → KeyState
  | .recv now msg => handleRecord cfg now msg s
  | .tick now => handleTick cfg now s
  | .complete => handleComplete s

def runKey (cfg : ConsumerSettings) (s : KeyState) : List KeyEvent → KeyState
  | [] => s
  | e :: es => runKey cfg (keyStep cfg s e) es

/-- All records received for the key, in arrival order. -/
def inputsOf : List KeyEvent → List FrameMsg
  | [] => []
  | .recv _ m :: es => m :: inputsOf es
  | .tick _ :: es => inputsOf es
  | .complete :: es => inputsOf es

/-- The records received while the key's pending flag was clear — the
ones the poll loop actually appends to a window. -/
def keptInputs (cfg : ConsumerSettings) (s : KeyState) : List KeyEvent → List FrameMsg
  | [] => []
  | .recv now m :: es =>
      (if s.pending then [] else [m]) ++
        keptInputs cfg (keyStep cfg s (.recv now m)) es
  | .tick now :: es => keptInputs cfg (keyStep cfg s (.tick now)) es
  | .complete :: es => keptInputs cfg (keyStep cfg s .complete) es

/-- A trace is well formed when a completion event only occurs while a
submission is actually in flight (a pool future can only finish after
it was submitted). -/
def validFrom (cfg : ConsumerSettings) (s : KeyState) : List KeyEvent → Bool
  | [] => true
  | .complete :: es => s.pending && validFrom cfg (keyStep cfg s .complete) es
  | e :: es => validFrom cfg (keyStep cfg s e) es

/-- What one step contributes to the total window content. -/
def stepContribution (s : KeyState) : KeyEvent → List FrameMsg
  | .recv _ m => if s.pending then [] else [m]
  | .tick _ => []
  | .complete => []

/-- What one step contributes to the dropped ghost log. -/
def stepDropped (s : KeyState) : KeyEvent → List FrameMsg
  | .recv _ m => if s.pending then [m] else []
  | .tick _ => []
  | .complete => []

/-- The records received while the key's pending flag was set — the
ones the poll loop silently discards. -/
def droppedInputs (cfg : ConsumerSettings) (s : KeyState) :
    List KeyEvent → List FrameMsg
  | [] => []
  | .recv now m :: es =>
      (if s.pending then [m] else []) ++
        droppedInputs cfg (keyStep cfg s (.recv now m)) es
  | .tick now :: es => droppedInputs cfg (keyStep cfg s (.tick now)) es
  | .complete :: es => droppedInputs cfg (keyStep cfg s .complete) es

/-! ## In-flight invariant machinery (spec §4.2 / §8) -/

/-- The instrumentation invariant tying the boolean `pending_batches`
flag to the ghost count of concurrently active submissions. -/
def KeyInv (s : KeyState) : Prop :=
  (s.pending = true ↔ s.inFlight = 1) ∧ s.inFlight ≤ 1

/-! ## Commit path — `FrameProcessor.cleanup_completed_futures`

```python
def cleanup_completed_futures(self):
    completed = []
    still_pending = []
    for future, topic in self.pending_futures:
        if future.done():
            completed.append((future, topic))
        else:
            still_pending.append((future, topic))
    self.pending_futures = still_pending
    if completed:
        try:
            self.consumer.commit(asynchronous=False)
        ...
```
-/

/-- One entry of `self.pending_futures`: the pool future's completion
status together with the topic it was submitted for. -/
structure PendingFuture where
  done : Bool
  topic : String
  deriving Repr, DecidableEq

/-- `cleanup_completed_futures`: partition the pending-futures list by
`future.done()`, keep the still-pending ones, and commit (advance the
broker read position) exactly when the completed list is non-empty.
Returns `(new pending_futures, whether a commit was issued)`. -/
def cleanup_completed_futures (fs : List PendingFuture) :
    List PendingFuture × Bool :=
  let completed := fs.filter (fun f => f.done)
  let stillPending := fs.filter (fun f => !f.done)
  (stillPending, !completed.isEmpty)

/-! ## Statistics — `FrameProcessor.__init__` / `process_batch`

```python
self.frames_processed = 0
self.batches_processed = 0
self.frames_per_topic = {topic: 0 for topic in self.topics}
...
with self.stats_lock:
    self.batches_processed += 1
    self.frames_processed += batch_size
    self.frames_per_topic[topic] += batch_size
```
-/

structure Stats where
  frames_processed : Nat
  batches_processed : Nat
  frames_per_topic : List (String × Nat)
  deriving Repr, DecidableEq

def initStats (topics : List String) : Stats :=
  { frames_processed := 0, batches_processed := 0,
    frames_per_topic := topics.map (fun t => (t, 0)) }

/-- `self.frames_per_topic[topic] += n` on the association-list
embedding of the dict: add to the first matching entry. -/
def bumpTopic (topic : String) (n : Nat) :
    List (String × Nat) → List (String × Nat)
  | [] => []
  | (t, k) :: rest =>
      if t = topic then (t, k + n) :: rest
      else (t, k) :: bumpTopic topic n rest

/-- The under-lock statistics update performed on successful batch
completion (consumer.py lines 409–412). -/
def statsOnSuccess (topic : String) (batchSize : Nat) (st : Stats) : Stats :=
  { st with
    batches_processed := st.batches_processed + 1,
    frames_processed := st.frames_processed + batchSize,
    frames_per_topic := bumpTopic topic batchSize st.frames_per_topic }

def sumPerTopic (st : Stats) : Nat :=
  (st.frames_per_topic.map Prod.snd).sum

/-- A processor-level statistics event: a batch for `topic` of size
`size` finishing successfully, or any batch finishing in failure (which
leaves the counters untouched). -/
inductive StatsOp where
  | success (topic : String) (size : Nat)
  | failure
  deriving Repr, DecidableEq

def statsStep (st : Stats) : StatsOp → Stats
  | .success topic size => statsOnSuccess topic size st
  | .failure => st

def runStats (st : Stats) : List StatsOp → Stats
  | [] => st
  | op :: ops => runStats (statsStep st op) ops

/-! ## Batch processing outcome — `FrameProcessor.process_batch`

The network/OpenCV effects inside the `try` block are abstracted into
an outcome: the block either runs to completion (`success`), raises
`httpx.HTTPStatusError` (caught at line 429), or raises any other
exception (caught at line 437). -/

inductive BatchOutcome where
  | success
  | httpStatusError (status : Nat)
  | otherError
  deriving Repr, DecidableEq

/-- `process_batch(batch, topic)` observed through its state effects:
returns `(return value, statistics after, pending flag after)`.  An
empty batch returns True before the `try`/`finally` block, so the
pending flag is left as it was; otherwise the `finally` clause clears
the flag whatever the outcome, and the statistics are updated only on
success. -/
def process_batch (outcome : BatchOutcome) (topic : String)
    (batch : List FrameMsg) (stats : Stats) (pendingFlag : Bool) :
    Bool × Stats × Bool :=
  if batch = [] then
    (true, stats, pendingFlag)
  else
    match outcome with
    | .success => (true, statsOnSuccess topic batch.length stats, false)
    | .httpStatusError _ => (false, stats, false)
    | .otherError => (false, stats, false)

/-! ## Per-frame uploads — `FrameProcessor.process_batch` lines 376–404

```python
for i, result in enumerate(inference_response.results):
    frame_msg = chunk[i]
    if not result.detections:
        continue
    ...
    timestamp = datetime.utcnow().strftime("%Y%m%d_%H%M%S")
    s3_key = f"{settings.s3_prefix}/{stream_id}/{timestamp}_frame{result.frame_number}.jpg"
    self.upload_to_s3(image_bytes, s3_key, bucket)
```
with `bucket = self.topic_bucket_mapping.get(topic, settings.s3_bucket)`.
-/

structure UploadCall where
  bucket : String
  key : String
  deriving Repr, DecidableEq

/-- The S3 key the code builds: `nowStr` is `datetime.utcnow()`
formatted as `%Y%m%d_%H%M%S` at processing time. -/
def s3KeyFor (pfx streamId nowStr : String) (frameNumber : Nat) : String :=
  pfx ++ "/" ++ streamId ++ "/" ++ nowStr ++ "_frame" ++
    toString frameNumber ++ ".jpg"

/-- Modelled from the spec: the documented upload-key pattern
`{prefix}/{streamId}/{captureTimestamp}_frame{frameNumber}.{ext}`
(spec §4.5), in which the timestamp segment is the record's capture
timestamp.  Kept separate from `s3KeyFor` so the two derivations can be
compared. -/
def specUploadKey (pfx streamId captureTs : String) (frameNumber : Nat) : String :=
  pfx ++ "/" ++ streamId ++ "/" ++ captureTs ++ "_frame" ++
    toString frameNumber ++ ".jpg"

/-- `self.topic_bucket_mapping.get(topic, settings.s3_bucket)`. -/
def bucketFor (mapping : List (String × String))
    (defaultBucket topic : String) : String :=
  (mapping.lookup topic).getD defaultBucket

/-- The uploads issued for one chunk's results: frames whose result has
no detections are skipped; every other result produces exactly one
upload keyed by `s3KeyFor`. -/
def chunkUploads (pfx streamId nowStr bucket : String)
    (chunk : List FrameMsg) (results : List FrameResult) : List UploadCall :=
  ((results.zip chunk).filter
      (fun rc => !rc.1.detections.isEmpty)).map
    (fun rc =>
      { bucket := bucket,
        key := s3KeyFor pfx streamId nowStr rc.1.frame_number })

/-! ## Bounded retry — the `tenacity` decorators

`upload_to_s3` and `call_inference_service_chunk` are both decorated
with `@retry(stop=stop_after_attempt(3), wait=wait_exponential(multiplier=1, min=1, max=10))`.
`tenacity`'s default retry predicate retries on *every* exception; the
stop condition allows attempts 1, 2, 3 and re-raises the last error.
The attempted call is abstracted as `call : Nat → Except ErrKind α`
giving the outcome of each numbered attempt. -/

inductive ErrKind where
  | clientError (status : Nat)
  | serverError (status : Nat)
  | networkError
  deriving Repr, DecidableEq

instance {ε α : Type} [DecidableEq ε] [DecidableEq α] :
    DecidableEq (Except ε α) := fun x y =>
  match x, y with
  | .ok a, .ok b =>
      if h : a = b then .isTrue (by rw [h])
      else .isFalse (by intro hh; cases hh; exact h rfl)
  | .ok _, .error _ => .isFalse (by intro hh; cases hh)
  | .error _, .ok _ => .isFalse (by intro hh; cases hh)
  | .error e, .error f =>
      if h : e = f then .isTrue (by rw [h])
      else .isFalse (by intro hh; cases hh; exact h rfl)

/-- The retry loop: `attempt` is the current attempt number,
`remaining` how many further attempts the stop condition allows.  The
result is paired with the number of the attempt that produced it (=
total attempts made when counting from 1). -/
def retryFrom {α : Type} (call : Nat → Except ErrKind α) (attempt : Nat) :
    Nat → Except ErrKind α × Nat
  | 0 => (call attempt, attempt)
  | r + 1 =>
      match call attempt with
      | .ok a => (.ok a, attempt)
      | .error _ => retryFrom call (attempt + 1) r

/-- `call_inference_service_chunk` under its decorator: up to 3
attempts of the wrapped HTTP call. -/
def call_inference_service_chunk
    (call : Nat → Except ErrKind InferenceResponse) :
    Except ErrKind InferenceResponse × Nat :=
  retryFrom call 1 2

/-- `upload_to_s3` under its decorator: up to 3 attempts of the wrapped
`put_object`. -/
def upload_to_s3 (put : Nat → Except ErrKind Unit) :
    Except ErrKind Unit × Nat :=
  retryFrom put 1 2

/-- `tenacity.wait_exponential`: `max(max(0, min), min(multiplier *
exp_base^(attempt_number - 1), max))`, in whole seconds. -/
def wait_exponential (multiplier minW maxW expBase attemptNumber : Nat) : Nat :=
  max (max 0 minW) (min (multiplier * expBase ^ (attemptNumber - 1)) maxW)

/-- The wait after the `attemptNumber`-th failed attempt under
`wait_exponential(multiplier=1, min=1, max=10)`. -/
def backoffWait (attemptNumber : Nat) : Nat :=
  wait_exponential 1 1 10 2 attemptNumber

/-! ## Inference service — `predict_batch` (main.py lines 217–293)

The per-frame decode + model call is abstracted as an oracle: a frame
either decodes and yields detections with an inference time, or fails
to decode (`decode_frame` wraps any decoding exception in `ValueError`,
which the handler catches per frame). -/

structure FrameInput where
  frame_number : Nat
  frame_data : String
  timestamp : Option String
  deriving Repr, DecidableEq

inductive FrameOutcome where
  | ok (detections : List BoundingBox) (timeMs : Nat)
  | decodeError
  deriving Repr, DecidableEq

/-- The `FrameResult` the handler appends for one input frame: the
inference result on success, an empty result with zero time when the
frame fails to decode. -/
def frameResultFor (oracle : FrameInput → FrameOutcome)
    (f : FrameInput) : FrameResult :=
  match oracle f with
  | .ok dets t => { frame_number := f.frame_number, detections := dets,
                    inference_time_ms := t }
  | .decodeError => { frame_number := f.frame_number, detections := [],
                      inference_time_ms := 0 }

/-- One iteration of the handler's loop over `request.frames`,
accumulating `(results, total_detections)`; `total_detections` is only
incremented on the success path (the `except ValueError` path appends
an empty result without touching it). -/
def predictStep (oracle : FrameInput → FrameOutcome)
    (acc : List FrameResult × Nat) (f : FrameInput) :
    List FrameResult × Nat :=
  match oracle f with
  | .ok dets _ => (acc.1 ++ [frameResultFor oracle f], acc.2 + dets.length)
  | .decodeError => (acc.1 ++ [frameResultFor oracle f], acc.2)

/-- `POST /predict`: rejects batches over `max_batch_size` with a 400,
otherwise folds the per-frame loop and assembles the response
(`total_inference_time_ms` is the handler's wall-clock total, passed in
as `totalTimeMs`).  The error value is the HTTP status code. -/
def predict_batch (maxBatch : Nat) (oracle : FrameInput → FrameOutcome)
    (stream_id : String) (frames : List FrameInput) (totalTimeMs : Nat) :
    Except Nat InferenceResponse :=
  if maxBatch < frames.length then
    .error 400
  else
    let rn := frames.foldl (predictStep oracle) ([], 0)
    .ok { stream_id := stream_id, results := rn.1,
          total_frames := frames.length, total_detections := rn.2,
          total_inference_time_ms := totalTimeMs }

/-! ## Concrete fixtures used by witnesses and counterexamples -/

def msgA : FrameMsg :=
  { stream_id := "cam-1", frame_number := 1, frame_data := "f1",
    timestamp := none }

def msgB : FrameMsg :=
  { stream_id := "cam-1", frame_number := 2, frame_data := "f2",
    timestamp := none }

def detSample : BoundingBox :=
  { x1 := 0, y1 := 0, x2 := 1, y2 := 1, confidence := 1, class_id := 0,
    class_name := "person" }

def batch30 : List FrameMsg :=
  (List.range 30).map
    (fun i => { stream_id := "cam-1", frame_number := i, frame_data := "d",
                timestamp := none })

def respond0 : List FrameMsg → InferenceResponse :=
  fun c => { stream_id := "cam-1", results := [], total_frames := c.length,
             total_detections := 0, total_inference_time_ms := 0 }

def fIn1 : FrameInput :=
  { frame_number := 1, frame_data := "good", timestamp := none }

def fIn2 : FrameInput :=
  { frame_number := 2, frame_data := "bad", timestamp := none }

def oracle0 : FrameInput → FrameOutcome :=
  fun f => if f.frame_data = "bad" then .decodeError
           else .ok [detSample] 5

/-- Decidable form of "every success op names a known topic" (messages
only arrive from subscribed topics, so `frames_per_topic` always has
the key). -/
def opsWellFormed (topics : List String) (ops : List StatsOp) : Bool :=
  ops.all (fun op =>
    match op with
    | .success t _ => topics.contains t
    | .failure => true)

theorem chunkListAux_congr (size : Nat) :
    ∀ (f1 f2 : Nat) (l : List FrameMsg), l.length ≤ f1 → l.length ≤ f2 →
      chunkListAux size f1 l = chunkListAux size f2 l := by
  intro f1
  induction f1 with
  | zero =>
      intro f2 l h1 _
      cases l with
      | nil => cases f2 <;> rfl
      | cons x xs => simp at h1
  | succ f1 ih =>
      intro f2 l h1 h2
      cases l with
      | nil => cases f2 <;> rfl
      | cons x xs =>
          cases f2 with
          | zero => simp at h2
          | succ f2 =>
              simp only [chunkListAux, List.cons.injEq, true_and]
              apply ih
              · simp only [List.length_drop]
                simp only [List.length_cons] at h1
                omega
              · simp only [List.length_drop]
                simp only [List.length_cons] at h2
                omega

theorem chunkList_cons (size : Nat) (x : FrameMsg) (xs : List FrameMsg) :
    chunkList size (x :: xs) =
      (x :: xs.take (size - 1)) :: chunkList size (xs.drop (size - 1)) := by
  simp only [chunkList, List.length_cons, chunkListAux, List.cons.injEq,
    true_and]
  apply chunkListAux_congr
  · simp only [List.length_drop]
    omega
  · exact le_refl _

theorem chunkList_cons_eq (size : Nat) (h : 0 < size) (x : FrameMsg)
    (xs : List FrameMsg) :
    chunkList size (x :: xs) =
      (x :: xs).take size :: chunkList size ((x :: xs).drop size) := by
  obtain ⟨s, rfl⟩ : ∃ s, size = s + 1 := ⟨size - 1, by omega⟩
  rw [chunkList_cons]
  simp [List.take, List.drop]

/-! Basic chunking lemmas. -/

theorem chunkList_flatten (size : Nat) :
    ∀ l : List FrameMsg, (chunkList size l).flatten = l := by
  have key : ∀ (n : Nat) (l : List FrameMsg), l.length ≤ n →
      (chunkList size l).flatten = l := by
    intro n
    induction n with
    | zero =>
        intro l hl
        cases l with
        | nil => rfl
        | cons x xs => simp at hl
    | succ n ih =>
        intro l hl
        cases l with
        | nil => rfl
        | cons x xs =>
            simp only [List.length_cons] at hl
            rw [chunkList_cons, List.flatten_cons,
              ih _ (by simp only [List.length_drop]; omega)]
            simp only [List.cons_append, List.take_append_drop]
  intro l
  exact key l.length l (le_refl _)

theorem chunkList_length_le (size : Nat) (h : 0 < size) :
    ∀ l : List FrameMsg, ∀ c ∈ chunkList size l, c.length ≤ size := by
  have key : ∀ (n : Nat) (l : List FrameMsg), l.length ≤ n →
      ∀ c ∈ chunkList size l, c.length ≤ size := by
    intro n
    induction n with
    | zero =>
        intro l hl c hc
        cases l with
        | nil => simp [chunkList, chunkListAux] at hc
        | cons x xs => simp at hl
    | succ n ih =>
        intro l hl c hc
        cases l with
        | nil => simp [chunkList, chunkListAux] at hc
        | cons x xs =>
            simp only [List.length_cons] at hl
            rw [chunkList_cons] at hc
            simp only [List.mem_cons] at hc
            rcases hc with hc | hc
            · subst hc
              have := List.length_take_le (size - 1) xs
              simp only [List.length_cons]
              omega
            · exact ih _ (by simp only [List.length_drop]; omega) c hc
  intro l
  exact key l.length l (le_refl _)

theorem chunkList_nonempty (size : Nat) :
    ∀ l : List FrameMsg, ∀ c ∈ chunkList size l, c ≠ [] := by
  have key : ∀ (n : Nat) (l : List FrameMsg), l.length ≤ n →
      ∀ c ∈ chunkList size l, c ≠ [] := by
    intro n
    induction n with
    | zero =>
        intro l hl c hc
        cases l with
        | nil => simp [chunkList, chunkListAux] at hc
        | cons x xs => simp at hl
    | succ n ih =>
        intro l hl c hc
        cases l with
        | nil => simp [chunkList, chunkListAux] at hc
        | cons x xs =>
            simp only [List.length_cons] at hl
            rw [chunkList_cons] at hc
            simp only [List.mem_cons] at hc
            rcases hc with hc | hc
            · subst hc; simp
            · exact ih _ (by simp only [List.length_drop]; omega) c hc
  intro l
  exact key l.length l (le_refl _)

theorem chunkList_count (size : Nat) (h : 0 < size) :
    ∀ l : List FrameMsg,
      (chunkList size l).length = (l.length + size - 1) / size := by
  have key : ∀ (n : Nat) (l : List FrameMsg), l.length ≤ n →
      (chunkList size l).length = (l.length + size - 1) / size := by
    intro n
    induction n with
    | zero =>
        intro l hl
        cases l with
        | nil =>
            simp only [chunkList, chunkListAux, List.length_nil,
              Nat.zero_add]
            exact (Nat.div_eq_of_lt (by omega)).symm
        | cons x xs => simp at hl
    | succ n ih =>
        intro l hl
        cases l with
        | nil =>
            simp only [chunkList, chunkListAux, List.length_nil,
              Nat.zero_add]
            exact (Nat.div_eq_of_lt (by omega)).symm
        | cons x xs =>
            simp only [List.length_cons] at hl
            rw [chunkList_cons]
            have hdl : (List.drop (size - 1) xs).length ≤ n := by
              simp only [List.length_drop]
              omega
            rw [List.length_cons, ih _ hdl]
            simp only [List.length_drop, List.length_cons]
            rcases Nat.lt_or_ge xs.length size with hlt | hge
            · have h1 : xs.length - (size - 1) + size - 1 = size - 1 := by
                omega
              rw [h1]
              have h2 : (size - 1) / size = 0 := Nat.div_eq_of_lt (by omega)
              have h3 : (xs.length + 1 + size - 1) / size = 1 := by
                apply Nat.div_eq_of_lt_le <;> omega
              rw [h2, h3]
            · have h1 : xs.length - (size - 1) + size - 1 = xs.length := by
                omega
              have h2 : xs.length + 1 + size - 1 = xs.length + size := by
                omega
              rw [h1, h2, Nat.add_div_right _ h]
  intro l
  exact key l.length l (le_refl _)

theorem submit_content (s : KeyState) :
    (submit_batch_for_processing s).submitted.flatten ++
      (submit_batch_for_processing s).batch =
    s.submitted.flatten ++ s.batch := by
  unfold submit_batch_for_processing
  split
  · rfl
  · split
    · rfl
    · simp

theorem ite_submit_content (c : Prop) [Decidable c] (t : KeyState) :
    (if c then submit_batch_for_processing t else t).submitted.flatten ++
      (if c then submit_batch_for_processing t else t).batch =
    t.submitted.flatten ++ t.batch := by
  split
  · exact submit_content t
  · rfl

theorem submit_dropped (s : KeyState) :
    (submit_batch_for_processing s).dropped = s.dropped := by
  unfold submit_batch_for_processing
  split
  · rfl
  · split <;> rfl

theorem ite_submit_dropped (c : Prop) [Decidable c] (t : KeyState) :
    (if c then submit_batch_for_processing t else t).dropped = t.dropped := by
  split
  · exact submit_dropped t
  · rfl

theorem keyStep_content (cfg : ConsumerSettings) (s : KeyState) (e : KeyEvent) :
    (keyStep cfg s e).submitted.flatten ++ (keyStep cfg s e).batch =
      s.submitted.flatten ++ s.batch ++ stepContribution s e := by
  cases e with
  | recv now m =>
      by_cases hp : s.pending
      · simp [keyStep, handleRecord, hp, stepContribution]
      · simp only [keyStep, handleRecord, hp, if_false, stepContribution,
          Bool.false_eq_true]
        rw [ite_submit_content]
        simp
  | tick now =>
      simp only [keyStep, handleTick, stepContribution]
      rw [ite_submit_content]
      simp
  | complete =>
      simp [keyStep, handleComplete, stepContribution]

theorem keyStep_dropped (cfg : ConsumerSettings) (s : KeyState) (e : KeyEvent) :
    (keyStep cfg s e).dropped = s.dropped ++ stepDropped s e := by
  cases e with
  | recv now m =>
      by_cases hp : s.pending
      · simp [keyStep, handleRecord, hp, stepDropped]
      · simp only [keyStep, handleRecord, hp, if_false, stepDropped,
          Bool.false_eq_true]
        rw [ite_submit_dropped]
        simp
  | tick now =>
      simp only [keyStep, handleTick, stepDropped]
      rw [ite_submit_dropped]
      simp
  | complete =>
      simp [keyStep, handleComplete, stepDropped]

theorem runKey_dropped (cfg : ConsumerSettings) :
    ∀ (tr : List KeyEvent) (s : KeyState),
      (runKey cfg s tr).dropped = s.dropped ++ droppedInputs cfg s tr := by
  intro tr
  induction tr with
  | nil => intro s; simp [runKey, droppedInputs]
  | cons e es ih =>
      intro s
      cases e with
      | recv now m =>
          simp only [runKey, droppedInputs, ih, keyStep_dropped, stepDropped]
          simp [List.append_assoc]
      | tick now =>
          simp only [runKey, droppedInputs, ih, keyStep_dropped, stepDropped]
          simp
      | complete =>
          simp only [runKey, droppedInputs, ih, keyStep_dropped, stepDropped]
          simp

theorem runKey_content (cfg : ConsumerSettings) :
    ∀ (tr : List KeyEvent) (s : KeyState),
      (runKey cfg s tr).submitted.flatten ++ (runKey cfg s tr).batch =
        s.submitted.flatten ++ s.batch ++ keptInputs cfg s tr := by
  intro tr
  induction tr with
  | nil => intro s; simp [runKey, keptInputs]
  | cons e es ih =>
      intro s
      cases e with
      | recv now m =>
          simp only [runKey, keptInputs, ih, keyStep_content, stepContribution]
          simp [List.append_assoc]
      | tick now =>
          simp only [runKey, keptInputs, ih, keyStep_content, stepContribution]
          simp
      | complete =>
          simp only [runKey, keptInputs, ih, keyStep_content, stepContribution]
          simp

theorem keptInputs_sublist (cfg : ConsumerSettings) :
    ∀ (tr : List KeyEvent) (s : KeyState),
      (keptInputs cfg s tr).Sublist (inputsOf tr) := by
  intro tr
  induction tr with
  | nil => intro s; simp [keptInputs, inputsOf]
  | cons e es ih =>
      intro s
      cases e with
      | recv now m =>
          simp only [keptInputs, inputsOf]
          split
          · exact List.sublist_cons_of_sublist m (by simpa using ih _)
          · simpa using List.Sublist.cons₂ m (ih _)
      | tick now => simpa [keptInputs, inputsOf] using ih _
      | complete => simpa [keptInputs, inputsOf] using ih _

/-- When no record was dropped, every received record was kept. -/
theorem droppedInputs_nil_kept (cfg : ConsumerSettings) :
    ∀ (tr : List KeyEvent) (s : KeyState),
      droppedInputs cfg s tr = [] →
      keptInputs cfg s tr = inputsOf tr := by
  intro tr
  induction tr with
  | nil => intro s _; rfl
  | cons e es ih =>
      intro s hd
      cases e with
      | recv now m =>
          by_cases hp : s.pending
          · simp [droppedInputs, hp] at hd
          · simp only [droppedInputs, hp, if_false, Bool.false_eq_true,
              List.nil_append] at hd
            simp only [keptInputs, inputsOf, hp, if_false, Bool.false_eq_true]
            rw [ih _ hd]
            simp
      | tick now =>
          simp only [droppedInputs] at hd
          simp only [keptInputs, inputsOf]
          exact ih _ hd
      | complete =>
          simp only [droppedInputs] at hd
          simp only [keptInputs, inputsOf]
          exact ih _ hd

theorem submit_inv (s : KeyState) (hinv : KeyInv s) :
    KeyInv (submit_batch_for_processing s) := by
  unfold submit_batch_for_processing
  split
  · exact hinv
  · split
    · exact hinv
    · rename_i hp _
      have h0 : s.inFlight = 0 := by
        rcases hinv with ⟨hiff, hle⟩
        have : ¬ s.inFlight = 1 := fun h => hp (hiff.mpr h)
        omega
      constructor
      · simp [h0]
      · simp [h0]

theorem ite_submit_inv (c : Prop) [Decidable c] (t : KeyState)
    (hinv : KeyInv t) :
    KeyInv (if c then submit_batch_for_processing t else t) := by
  split
  · exact submit_inv t hinv
  · exact hinv

theorem keyStep_inv (cfg : ConsumerSettings) (s : KeyState) (e : KeyEvent)
    (hinv : KeyInv s) (hvalid : e = .complete → s.pending = true) :
    KeyInv (keyStep cfg s e) := by
  cases e with
  | recv now m =>
      by_cases hp : s.pending
      · simpa [keyStep, handleRecord, hp, KeyInv] using hinv
      · simp only [keyStep, handleRecord, hp, if_false, Bool.false_eq_true]
        refine ite_submit_inv _ _ ⟨?_, hinv.2⟩
        constructor
        · intro h; cases h
        · intro h1; exact absurd (hinv.1.mpr h1) hp
  | tick now =>
      simp only [keyStep, handleTick]
      apply ite_submit_inv
      exact hinv
  | complete =>
      have hp : s.pending = true := hvalid rfl
      have h1 : s.inFlight = 1 := hinv.1.mp hp
      constructor
      · simp [keyStep, handleComplete, h1]
      · simp [keyStep, handleComplete, h1]

theorem runKey_inv (cfg : ConsumerSettings) :
    ∀ (tr : List KeyEvent) (s : KeyState),
      KeyInv s → validFrom cfg s tr = true →
      KeyInv (runKey cfg s tr) := by
  intro tr
  induction tr with
  | nil => intro s hinv _; exact hinv
  | cons e es ih =>
      intro s hinv hv
      cases e with
      | recv now m =>
          simp only [validFrom] at hv
          exact ih _ (keyStep_inv cfg s _ hinv (by intro h; cases h)) hv
      | tick now =>
          simp only [validFrom] at hv
          exact ih _ (keyStep_inv cfg s _ hinv (by intro h; cases h)) hv
      | complete =>
          simp only [validFrom, Bool.and_eq_true] at hv
          exact ih _ (keyStep_inv cfg s _ hinv (fun _ => hv.1)) hv.2

/-! ## Supporting lemmas -/

theorem retryFrom_attempt_le {α : Type} (call : Nat → Except ErrKind α) :
    ∀ (r a : Nat), (retryFrom call a r).2 ≤ a + r := by
  intro r
  induction r with
  | zero => intro a; simp [retryFrom]
  | succ r ih =>
      intro a
      simp only [retryFrom]
      cases hc : call a with
      | ok x => simp
      | error e => exact le_trans (ih (a + 1)) (by omega)

theorem retryFrom_attempt_ge {α : Type} (call : Nat → Except ErrKind α) :
    ∀ (r a : Nat), a ≤ (retryFrom call a r).2 := by
  intro r
  induction r with
  | zero => intro a; simp [retryFrom]
  | succ r ih =>
      intro a
      simp only [retryFrom]
      cases hc : call a with
      | ok x => simp
      | error e => exact le_trans (by omega) (ih (a + 1))

theorem retryFrom_error_all {α : Type} (call : Nat → Except ErrKind α) :
    ∀ (r a : Nat) (e : ErrKind),
      (retryFrom call a r).1 = .error e → (retryFrom call a r).2 = a + r := by
  intro r
  induction r with
  | zero => intro a e _; simp [retryFrom]
  | succ r ih =>
      intro a e h
      simp only [retryFrom] at h ⊢
      cases hc : call a with
      | ok x => rw [hc] at h; simp at h
      | error e' =>
          rw [hc] at h
          simp only [hc]
          rw [ih (a + 1) e h]
          omega

theorem retryFrom_ok_first {α : Type} (call : Nat → Except ErrKind α)
    (a : Nat) (x : α) (h : call a = .ok x) :
    ∀ r, retryFrom call a r = (.ok x, a) := by
  intro r
  cases r with
  | zero => simp [retryFrom, h]
  | succ r => simp [retryFrom, h]

theorem zip_filter_map_fst {β : Type} (p : FrameResult → Bool)
    (g : FrameResult → β) :
    ∀ (rs : List FrameResult) (cs : List FrameMsg), rs.length = cs.length →
      ((rs.zip cs).filter (fun rc => p rc.1)).map (fun rc => g rc.1)
        = (rs.filter p).map g := by
  intro rs
  induction rs with
  | nil => intro cs _; simp
  | cons r rs ih =>
      intro cs h
      cases cs with
      | nil => simp at h
      | cons c cs =>
          simp only [List.zip_cons_cons, List.filter_cons]
          by_cases hp : p r
          · simp only [hp, if_pos, List.map_cons]
            rw [ih cs (by simpa using h)]
          · simp only [hp, Bool.false_eq_true, if_false]
            rw [ih cs (by simpa using h)]

theorem bumpTopic_keys (topic : String) (n : Nat) :
    ∀ l : List (String × Nat),
      (bumpTopic topic n l).map Prod.fst = l.map Prod.fst := by
  intro l
  induction l with
  | nil => rfl
  | cons p rest ih =>
      obtain ⟨t, k⟩ := p
      simp only [bumpTopic]
      split
      · simp
      · simp [ih]

theorem bumpTopic_sum (topic : String) (n : Nat) :
    ∀ l : List (String × Nat), topic ∈ l.map Prod.fst →
      ((bumpTopic topic n l).map Prod.snd).sum
        = (l.map Prod.snd).sum + n := by
  intro l
  induction l with
  | nil => intro h; simp at h
  | cons p rest ih =>
      obtain ⟨t, k⟩ := p
      intro h
      simp only [bumpTopic]
      by_cases ht : t = topic
      · simp only [ht, if_pos]
        simp [Nat.add_assoc, Nat.add_comm n, Nat.add_left_comm]
      · simp only [ht, if_false]
        have hmem : topic ∈ rest.map Prod.fst := by
          simp only [List.map_cons, List.mem_cons] at h
          rcases h with h | h
          · exact absurd h.symm ht
          · exact h
        simp only [List.map_cons, List.sum_cons, ih hmem]
        omega

theorem predict_foldl (oracle : FrameInput → FrameOutcome) :
    ∀ (frames : List FrameInput) (acc : List FrameResult) (k : Nat),
      frames.foldl (predictStep oracle) (acc, k)
        = (acc ++ frames.map (frameResultFor oracle),
           k + (frames.map
                (fun f => (frameResultFor oracle f).detections.length)).sum) := by
  intro frames
  induction frames with
  | nil => intro acc k; simp
  | cons f fs ih =>
      intro acc k
      simp only [List.foldl_cons]
      cases ho : oracle f with
      | ok dets t =>
          have hstep : predictStep oracle (acc, k) f
              = (acc ++ [frameResultFor oracle f], k + dets.length) := by
            simp [predictStep, ho]
          rw [hstep, ih]
          have hres : frameResultFor oracle f
              = { frame_number := f.frame_number, detections := dets,
                  inference_time_ms := t } := by
            simp [frameResultFor, ho]
          simp only [List.map_cons, List.sum_cons, hres, List.append_assoc,
            List.singleton_append]
          rw [Nat.add_assoc]
      | decodeError =>
          have hstep : predictStep oracle (acc, k) f
              = (acc ++ [frameResultFor oracle f], k) := by
            simp [predictStep, ho]
          rw [hstep, ih]
          have hres : frameResultFor oracle f
              = { frame_number := f.frame_number, detections := [],
                  inference_time_ms := 0 } := by
            simp [frameResultFor, ho]
          simp only [List.map_cons, List.sum_cons, hres, List.append_assoc,
            List.singleton_append]
          simp

/-! ## More supporting lemmas -/

theorem foldl_add_eq_sum {X : Type} (f : X → Nat) :
    ∀ (l : List X) (a : Nat),
      l.foldl (fun acc x => acc + f x) a = a + (l.map f).sum := by
  intro l
  induction l with
  | nil => intro a; simp
  | cons x xs ih =>
      intro a
      simp only [List.foldl_cons, List.map_cons, List.sum_cons, ih]
      omega

theorem sumPerTopic_init (topics : List String) :
    sumPerTopic (initStats topics) = 0 := by
  induction topics with
  | nil => rfl
  | cons t ts ih =>
      simp only [sumPerTopic, initStats, List.map_cons, List.sum_cons] at ih ⊢
      omega

theorem initStats_keys (topics : List String) :
    (initStats topics).frames_per_topic.map Prod.fst = topics := by
  simp only [initStats]
  induction topics with
  | nil => rfl
  | cons t ts ih => simpa using ih

theorem runStats_inv (topics : List String) :
    ∀ (ops : List StatsOp) (st : Stats),
      st.frames_processed = sumPerTopic st →
      st.frames_per_topic.map Prod.fst = topics →
      opsWellFormed topics ops = true →
      (runStats st ops).frames_processed = sumPerTopic (runStats st ops) := by
  intro ops
  induction ops with
  | nil => intro st h _ _; exact h
  | cons op rest ih =>
      intro st h hkeys hops
      simp only [opsWellFormed, List.all_cons, Bool.and_eq_true] at hops
      cases op with
      | success t n =>
          have ht : t ∈ topics := by
            have hc := hops.1
            simpa [List.contains, List.elem_iff] using hc
          simp only [runStats]
          apply ih
          · simp only [statsStep, statsOnSuccess, sumPerTopic]
            rw [bumpTopic_sum t n st.frames_per_topic (by rw [hkeys]; exact ht)]
            simp only [sumPerTopic] at h
            omega
          · simp only [statsStep, statsOnSuccess]
            rw [bumpTopic_keys]
            exact hkeys
          · exact hops.2
      | failure =>
          simp only [runStats, statsStep]
          exact ih st h hkeys hops.2

/-! ## Claim theorems -/

/-- C1 counterexample: with one completed and one still-outstanding
submission in `pending_futures`, `cleanup_completed_futures` issues a
commit even though the outstanding set is non-empty — the broker read
position IS advanced while the outstanding-submission count is nonzero,
refuting the quiescent-point-only commit rule. -/
theorem c1_counterexample :
    (cleanup_completed_futures
        [{ done := true, topic := "video-frames-1" },
         { done := false, topic := "video-frames-2" }]).2 = true
    ∧ (cleanup_completed_futures
        [{ done := true, topic := "video-frames-1" },
         { done := false, topic := "video-frames-2" }]).1
        = [{ done := false, topic := "video-frames-2" }] := by
  decide

/-- C1 (amended): `cleanup_completed_futures` commits — advances the
broker read position — exactly when at least one submitted window has
completed since the previous cleanup pass, regardless of whether other
submitted windows are still outstanding; the still-outstanding futures
(those not done) are carried over unchanged. -/
theorem c1_commit_on_any_completion (fs : List PendingFuture) :
    ((cleanup_completed_futures fs).2 = true ↔ ∃ f ∈ fs, f.done = true)
    ∧ (cleanup_completed_futures fs).1 = fs.filter (fun f => !f.done) := by
  refine ⟨?_, rfl⟩
  simp only [cleanup_completed_futures, Bool.not_eq_true']
  rw [List.isEmpty_eq_false_iff_exists_mem]
  constructor
  · rintro ⟨f, hf⟩
    exact ⟨f, (List.mem_filter.mp hf).1, (List.mem_filter.mp hf).2⟩
  · rintro ⟨f, hmem, hdone⟩
    exact ⟨f, List.mem_filter.mpr ⟨hmem, hdone⟩⟩

/-- C2 counterexample: with the default settings, a record received at
t=1 forms a window that the idle tick at t=6 submits (age 5s ≥ 5s); a
second record arriving at t=7, while that submission is in flight, is
silently discarded by the `if not self.pending_batches[topic]` guard —
it does NOT accumulate into a new open window, and the concatenation of
submitted windows plus the open window loses it. -/
theorem c2_counterexample :
    ((runKey {} initKeyState
        [KeyEvent.recv 1 msgA, KeyEvent.tick 6,
         KeyEvent.recv 7 msgB]).submitted.flatten
      ++ (runKey {} initKeyState
        [KeyEvent.recv 1 msgA, KeyEvent.tick 6,
         KeyEvent.recv 7 msgB]).batch
      ≠ inputsOf [KeyEvent.recv 1 msgA, KeyEvent.tick 6, KeyEvent.recv 7 msgB])
    ∧ (runKey {} initKeyState
        [KeyEvent.recv 1 msgA, KeyEvent.tick 6,
         KeyEvent.recv 7 msgB]).dropped = [msgB] := by
  decide

/-- C2 (amended): over any event trace, the concatenation of the key's
consecutive submitted windows followed by its open window equals, in
order, exactly the subsequence of received records that arrived while
no submission for the key was in flight; this is a subsequence of the
full input, and it equals the full input (no loss, duplication or
reordering) when no record arrived during an in-flight submission.
Records arriving while the key's in-flight flag is set are discarded,
not accumulated. -/
theorem c2_window_concatenation (cfg : ConsumerSettings)
    (tr : List KeyEvent) :
    ((runKey cfg initKeyState tr).submitted.flatten
        ++ (runKey cfg initKeyState tr).batch
      = keptInputs cfg initKeyState tr)
    ∧ (keptInputs cfg initKeyState tr).Sublist (inputsOf tr)
    ∧ ((runKey cfg initKeyState tr).dropped = [] →
        (runKey cfg initKeyState tr).submitted.flatten
            ++ (runKey cfg initKeyState tr).batch
          = inputsOf tr) := by
  have hcontent : (runKey cfg initKeyState tr).submitted.flatten
      ++ (runKey cfg initKeyState tr).batch
      = keptInputs cfg initKeyState tr := by
    simpa [initKeyState] using runKey_content cfg tr initKeyState
  refine ⟨hcontent, keptInputs_sublist cfg tr initKeyState, fun hd => ?_⟩
  have h2 := runKey_dropped cfg tr initKeyState
  rw [hd] at h2
  simp only [initKeyState, List.nil_append] at h2
  rw [hcontent, droppedInputs_nil_kept cfg tr initKeyState h2.symm]

/-- C2 witness: on a trace where the in-flight submission completes
before the next record arrives, nothing is dropped and the submitted
windows plus the open window reproduce the input exactly. -/
theorem c2_witness :
    (runKey {} initKeyState
        [KeyEvent.recv 1 msgA, KeyEvent.tick 6, KeyEvent.complete,
         KeyEvent.recv 7 msgB]).dropped = []
    ∧ ((runKey {} initKeyState
        [KeyEvent.recv 1 msgA, KeyEvent.tick 6, KeyEvent.complete,
         KeyEvent.recv 7 msgB]).submitted.flatten
      ++ (runKey {} initKeyState
        [KeyEvent.recv 1 msgA, KeyEvent.tick 6, KeyEvent.complete,
         KeyEvent.recv 7 msgB]).batch
      = inputsOf [KeyEvent.recv 1 msgA, KeyEvent.tick 6, KeyEvent.complete,
         KeyEvent.recv 7 msgB]) :=
  ⟨by decide,
   (c2_window_concatenation {}
     [KeyEvent.recv 1 msgA, KeyEvent.tick 6, KeyEvent.complete,
      KeyEvent.recv 7 msgB]).2.2 (by decide)⟩

/-- C3 (confirmed): per key, `submit_batch_for_processing` on a key
whose in-flight flag is set returns with the state unchanged (no
submission, open window kept); an actual submission requires the flag
clear and a non-empty window, sets the flag and hands exactly that
window to the pool while clearing the open window; the worker's
`finally` clause clears the flag on completion, success or not; and
along any well-formed trace the number of concurrently active
submissions for the key never exceeds one and is one exactly when the
flag is set. -/
theorem c3_single_flight (cfg : ConsumerSettings) :
    (∀ s : KeyState, s.pending = true → submit_batch_for_processing s = s)
    ∧ (∀ s : KeyState, s.pending = false → s.batch ≠ [] →
        (submit_batch_for_processing s).pending = true
        ∧ (submit_batch_for_processing s).submitted = s.submitted ++ [s.batch]
        ∧ (submit_batch_for_processing s).batch = [])
    ∧ (∀ s : KeyState, (handleComplete s).pending = false)
    ∧ (∀ tr : List KeyEvent, validFrom cfg initKeyState tr = true →
        (runKey cfg initKeyState tr).inFlight ≤ 1
        ∧ ((runKey cfg initKeyState tr).pending = true ↔
            (runKey cfg initKeyState tr).inFlight = 1)) := by
  refine ⟨?_, ?_, ?_, ?_⟩
  · intro s hp
    unfold submit_batch_for_processing
    simp [hp]
  · intro s hp hb
    unfold submit_batch_for_processing
    simp [hp, hb]
  · intro s
    rfl
  · intro tr hv
    have hinit : KeyInv initKeyState := by
      constructor
      · simp [initKeyState]
      · simp [initKeyState]
    have hinv := runKey_inv cfg tr initKeyState hinit hv
    exact ⟨hinv.2, hinv.1⟩

/-- C3 witness: the no-op on a pending key, the flag being set by a
real submission, the clear on completion, and the ≤ 1 in-flight bound
on a concrete valid trace. -/
theorem c3_witness :
    (submit_batch_for_processing
        { batch := [msgA], batchStart := some 1, pending := true,
          submitted := [], dropped := [], inFlight := 1 }
      = { batch := [msgA], batchStart := some 1, pending := true,
          submitted := [], dropped := [], inFlight := 1 })
    ∧ ((submit_batch_for_processing
        { batch := [msgA], batchStart := some 1, pending := false,
          submitted := [], dropped := [], inFlight := 0 }).pending = true)
    ∧ ((handleComplete initKeyState).pending = false)
    ∧ (runKey {} initKeyState
        [KeyEvent.recv 1 msgA, KeyEvent.tick 6, KeyEvent.complete]).inFlight
        ≤ 1 :=
  ⟨(c3_single_flight {}).1 _ rfl,
   ((c3_single_flight {}).2.1 _ rfl (by decide)).1,
   (c3_single_flight {}).2.2.1 _,
   ((c3_single_flight {}).2.2.2 _ (by decide)).1⟩

/-- C4 (confirmed): for a window whose recorded start instant is a real
(positive) clock value and a positive configured maximum, the trigger
predicate holds iff the record count has reached `batch_size` or the
window is non-empty and its age is at least `batch_timeout_seconds`;
consequently a window of size `batch_size - 1` younger than the timeout
never triggers, reaching `batch_size` records triggers, and an empty
window with no start time never triggers. -/
theorem c4_trigger_iff (cfg : ConsumerSettings) (now t : Int)
    (batch : List FrameMsg) (ht : 0 < t) (hbs : 0 < cfg.batch_size) :
    (should_process_batch cfg now batch (some t) = true ↔
      (cfg.batch_size ≤ batch.length ∨
        (batch ≠ [] ∧ cfg.batch_timeout_seconds ≤ now - t)))
    ∧ (batch.length + 1 = cfg.batch_size →
        now - t < cfg.batch_timeout_seconds →
        should_process_batch cfg now batch (some t) = false)
    ∧ (batch.length = cfg.batch_size →
        should_process_batch cfg now batch (some t) = true)
    ∧ should_process_batch cfg now [] none = false := by
  have htne : t ≠ 0 := by omega
  have hz : cfg.batch_size ≠ 0 := by omega
  refine ⟨?_, ?_, ?_, ?_⟩
  · unfold should_process_batch
    by_cases hlen : cfg.batch_size ≤ batch.length
    · simp [hlen]
    · by_cases hbne : batch = []
      · subst hbne
        simp [hlen, hz, htne]
      · simp [hlen, hbne, htne]
  · intro h1 h2
    have hlen : ¬ cfg.batch_size ≤ batch.length := by omega
    unfold should_process_batch
    by_cases hbne : batch = []
    · subst hbne
      simp [hlen, hz, htne]
    · simp [hlen, hbne, htne]
      omega
  · intro h
    have hlen : cfg.batch_size ≤ batch.length := by omega
    unfold should_process_batch
    simp [hlen]
  · unfold should_process_batch
    simp [hz]

/-- C4 witness: a single-record window started at t=2 triggers at t=10
(age 8s ≥ 5s) under the default settings. -/
theorem c4_witness :
    should_process_batch {} 10 [msgA] (some 2) = true :=
  ((c4_trigger_iff {} 10 2 [msgA] (by decide) (by decide)).1).mpr
    (Or.inr ⟨by decide, by decide⟩)

/-- C5 counterexample: a chunk call that fails every time with an HTTP
400 client error — non-retryable per the claim — is nonetheless
attempted 3 times (not 1) before the error propagates: `tenacity`'s
default retry predicate retries every exception, including
`httpx.HTTPStatusError` raised for 4xx responses. -/
theorem c5_counterexample :
    (call_inference_service_chunk
        (fun _ => .error (ErrKind.clientError 400))).2 = 3
    ∧ ¬ (call_inference_service_chunk
        (fun _ => .error (ErrKind.clientError 400))).2 = 1
    ∧ (call_inference_service_chunk
        (fun _ => .error (ErrKind.clientError 400))).1
        = .error (ErrKind.clientError 400) := by
  decide

/-- C5 (amended): every chunked inference call and every storage upload
is attempted at most 3 times; a first-attempt success makes exactly one
attempt; when the final outcome is an error, all 3 attempts were made —
every error, transient or client (4xx), consumes the retry budget
before propagating as a batch-fatal error; the exponential backoff wait
after the n-th failure is `clamp(2^(n-1), 1, 10)` seconds, so it starts
at 1s and is capped at 10s. -/
theorem c5_retry_policy :
    (∀ call : Nat → Except ErrKind InferenceResponse,
       (call_inference_service_chunk call).2 ≤ 3
       ∧ (∀ e, (call_inference_service_chunk call).1 = .error e →
            (call_inference_service_chunk call).2 = 3)
       ∧ (∀ x, call 1 = .ok x → call_inference_service_chunk call = (.ok x, 1)))
    ∧ (∀ put : Nat → Except ErrKind Unit,
       (upload_to_s3 put).2 ≤ 3
       ∧ (∀ e, (upload_to_s3 put).1 = .error e → (upload_to_s3 put).2 = 3))
    ∧ (∀ n : Nat, 1 ≤ backoffWait n ∧ backoffWait n ≤ 10)
    ∧ backoffWait 1 = 1 ∧ backoffWait 2 = 2 := by
  refine ⟨fun call => ⟨?_, fun e h => ?_, fun x h => ?_⟩,
         fun put => ⟨?_, fun e h => ?_⟩, fun n => ⟨?_, ?_⟩, rfl, rfl⟩
  · exact retryFrom_attempt_le call 2 1
  · exact retryFrom_error_all call 2 1 e h
  · exact retryFrom_ok_first call 1 x h 2
  · exact retryFrom_attempt_le put 2 1
  · exact retryFrom_error_all put 2 1 e h
  · unfold backoffWait wait_exponential
    exact le_max_of_le_left (by omega)
  · unfold backoffWait wait_exponential
    refine max_le (by omega) ?_
    exact le_trans (Nat.min_le_right _ _) (by omega)

/-- C5 witness: a persistently failing inference call and a
persistently failing upload each make exactly 3 attempts, and the first
backoff wait is at least 1s. -/
theorem c5_witness :
    (call_inference_service_chunk (fun _ => .error ErrKind.networkError)).2 = 3
    ∧ (upload_to_s3 (fun _ => .error ErrKind.networkError)).2 = 3
    ∧ 1 ≤ backoffWait 1 :=
  ⟨(c5_retry_policy.1 (fun _ => .error ErrKind.networkError)).2.1
      ErrKind.networkError (by decide),
   (c5_retry_policy.2.1 (fun _ => .error ErrKind.networkError)).2
      ErrKind.networkError (by decide),
   (c5_retry_policy.2.2.1 1).1⟩

/-- C6 (confirmed): for a non-empty batch, `call_inference_service`
calls the endpoint once per chunk over the ordered consecutive chunks
of size at most 25 whose concatenation is the batch, in original order;
the number of calls is ceil(n/25); each pair carries the response of
its own chunk; and the `process_batch` accumulators equal the sums of
the per-chunk totals. -/
theorem c6_chunked_inference (respond : List FrameMsg → InferenceResponse)
    (batch : List FrameMsg) (hne : batch ≠ []) :
    ((call_inference_service respond batch).map Prod.fst = chunkList 25 batch)
    ∧ (((call_inference_service respond batch).map Prod.fst).flatten = batch)
    ∧ (∀ c ∈ (call_inference_service respond batch).map Prod.fst,
        c.length ≤ 25 ∧ c ≠ [])
    ∧ ((call_inference_service respond batch).length
        = (batch.length + 24) / 25)
    ∧ (∀ cr ∈ call_inference_service respond batch, cr.2 = respond cr.1)
    ∧ (sumChunkDetections (call_inference_service respond batch)
        = ((call_inference_service respond batch).map
            (fun cr => cr.2.total_detections)).sum)
    ∧ (sumChunkInferenceTime (call_inference_service respond batch)
        = ((call_inference_service respond batch).map
            (fun cr => cr.2.total_inference_time_ms)).sum) := by
  have hfst : (call_inference_service respond batch).map Prod.fst
      = chunkList 25 batch := by
    simp [call_inference_service, List.map_map, Function.comp_def]
  refine ⟨hfst, ?_, ?_, ?_, ?_, ?_, ?_⟩
  · rw [hfst]
    exact chunkList_flatten 25 batch
  · intro c hc
    rw [hfst] at hc
    exact ⟨chunkList_length_le 25 (by omega) batch c hc,
           chunkList_nonempty 25 batch c hc⟩
  · simp only [call_inference_service, List.length_map]
    exact chunkList_count 25 (by omega) batch
  · intro cr hcr
    simp only [call_inference_service, List.mem_map] at hcr
    obtain ⟨c, _, rfl⟩ := hcr
    rfl
  · simpa [sumChunkDetections] using
      foldl_add_eq_sum (fun cr => cr.2.total_detections)
        (call_inference_service respond batch) 0
  · simpa [sumChunkInferenceTime] using
      foldl_add_eq_sum (fun cr => cr.2.total_inference_time_ms)
        (call_inference_service respond batch) 0

/-- C6 witness: a batch of 30 records yields exactly 2 inference calls
of sizes 25 and 5 whose chunks concatenate back to the batch. -/
theorem c6_witness :
    ((call_inference_service respond0 batch30).map
        (fun cr => cr.1.length) = [25, 5])
    ∧ (((call_inference_service respond0 batch30).map Prod.fst).flatten
        = batch30) :=
  ⟨by decide,
   (c6_chunked_inference respond0 batch30 (by decide)).2.1⟩

/-- C7 counterexample: a frame whose record carries capture timestamp
"20240101_000000" but is processed when `datetime.utcnow()` formats to
"20250607_121314" is uploaded under a key built from the processing
time, which differs from the documented pattern built from the capture
timestamp. -/
theorem c7_counterexample :
    chunkUploads "annotated" "cam" "20250607_121314" "bkt"
        [{ stream_id := "cam", frame_number := 7, frame_data := "data",
           timestamp := some "20240101_000000" }]
        [{ frame_number := 7, detections := [detSample],
           inference_time_ms := 3 }]
      = [{ bucket := "bkt",
           key := "annotated/cam/20250607_121314_frame7.jpg" }]
    ∧ "annotated/cam/20250607_121314_frame7.jpg"
        ≠ specUploadKey "annotated" "cam" "20240101_000000" 7 := by
  decide

/-- C7 (amended): for each chunk (with one result per frame), frames
whose result has zero detections produce no upload, and every result
with k ≥ 1 detections produces exactly one upload whose key is
`{prefix}/{streamId}/{processingTimestamp}_frame{frameNumber}.jpg` —
the timestamp segment being the UTC processing time, not the record's
capture timestamp — and whose destination bucket is the routing-table
entry for the key, or the configured default when unmapped. -/
theorem c7_upload_policy (pfx sid nowStr : String)
    (mapping : List (String × String)) (defaultBucket topic : String)
    (chunk : List FrameMsg) (results : List FrameResult)
    (hlen : results.length = chunk.length) :
    chunkUploads pfx sid nowStr (bucketFor mapping defaultBucket topic)
        chunk results
      = (results.filter (fun r => !r.detections.isEmpty)).map
          (fun r => { bucket := bucketFor mapping defaultBucket topic,
                      key := s3KeyFor pfx sid nowStr r.frame_number })
    ∧ (∀ b, mapping.lookup topic = some b →
        bucketFor mapping defaultBucket topic = b)
    ∧ (mapping.lookup topic = none →
        bucketFor mapping defaultBucket topic = defaultBucket) := by
  refine ⟨?_, ?_, ?_⟩
  · simpa [chunkUploads] using
      zip_filter_map_fst (fun r => !r.detections.isEmpty)
        (fun r => ({ bucket := bucketFor mapping defaultBucket topic,
                     key := s3KeyFor pfx sid nowStr r.frame_number } :
                   UploadCall))
        results chunk hlen
  · intro b hb
    simp [bucketFor, hb]
  · intro hb
    simp [bucketFor, hb]

/-- C7 witness: destination resolution from the routing table for a
mapped key and fall-back to the default for an unmapped key. -/
theorem c7_witness :
    bucketFor [("video-frames-1", "bucket-1")] "video-pipeline-output"
        "video-frames-1" = "bucket-1"
    ∧ bucketFor [("video-frames-1", "bucket-1")] "video-pipeline-output"
        "video-frames-2" = "video-pipeline-output" :=
  ⟨(c7_upload_policy "annotated" "cam" "T"
      [("video-frames-1", "bucket-1")] "video-pipeline-output"
      "video-frames-1" [] [] rfl).2.1 "bucket-1" (by decide),
   (c7_upload_policy "annotated" "cam" "T"
      [("video-frames-1", "bucket-1")] "video-pipeline-output"
      "video-frames-2" [] [] rfl).2.2 (by decide)⟩

/-- C8 (confirmed): when a non-empty batch's processing fails for any
reason (HTTP status error from inference after retries, or any other
exception, storage errors included), `process_batch` returns failure,
the statistics are unchanged, the key's pending flag is cleared by the
`finally` clause, and the worker's completion does not put the batch
back into any window (open window and submitted history are untouched
by completion). -/
theorem c8_batch_failure (outcome : BatchOutcome) (topic : String)
    (batch : List FrameMsg) (stats : Stats) (pendingFlag : Bool)
    (hfail : outcome ≠ .success) (hne : batch ≠ []) :
    (process_batch outcome topic batch stats pendingFlag).1 = false
    ∧ (process_batch outcome topic batch stats pendingFlag).2.1 = stats
    ∧ (process_batch outcome topic batch stats pendingFlag).2.2 = false
    ∧ (∀ s : KeyState, (handleComplete s).batch = s.batch
        ∧ (handleComplete s).submitted = s.submitted) := by
  cases outcome with
  | success => exact absurd rfl hfail
  | httpStatusError st =>
      exact ⟨by simp [process_batch, hne], by simp [process_batch, hne],
             by simp [process_batch, hne], fun s => ⟨rfl, rfl⟩⟩
  | otherError =>
      exact ⟨by simp [process_batch, hne], by simp [process_batch, hne],
             by simp [process_batch, hne], fun s => ⟨rfl, rfl⟩⟩

/-- C8 witness: a concrete failed batch leaves the statistics at their
initial value, reports failure, and clears the pending flag. -/
theorem c8_witness :
    (process_batch BatchOutcome.otherError "video-frames-1" [msgA]
        (initStats ["video-frames-1"]) true).1 = false
    ∧ (process_batch BatchOutcome.otherError "video-frames-1" [msgA]
        (initStats ["video-frames-1"]) true).2.1
        = initStats ["video-frames-1"]
    ∧ (process_batch BatchOutcome.otherError "video-frames-1" [msgA]
        (initStats ["video-frames-1"]) true).2.2 = false :=
  ⟨(c8_batch_failure BatchOutcome.otherError "video-frames-1" [msgA]
      (initStats ["video-frames-1"]) true (by decide) (by decide)).1,
   (c8_batch_failure BatchOutcome.otherError "video-frames-1" [msgA]
      (initStats ["video-frames-1"]) true (by decide) (by decide)).2.1,
   (c8_batch_failure BatchOutcome.otherError "video-frames-1" [msgA]
      (initStats ["video-frames-1"]) true (by decide) (by decide)).2.2.1⟩

/-- C9 (confirmed): for a valid /predict request of 1 ≤ n ≤ 25 frames
the handler returns 200 with exactly one `FrameResult` per input frame
in input order, `total_frames = n`, `total_detections` equal to the sum
of the per-frame detection-list lengths, and a frame that fails to
decode yields an empty-detections result with zero inference time
instead of failing the request. -/
theorem c9_predict_batch (oracle : FrameInput → FrameOutcome)
    (sid : String) (frames : List FrameInput) (totalTimeMs : Nat)
    (h1 : 1 ≤ frames.length) (h2 : frames.length ≤ 25) :
    ∃ resp, predict_batch 25 oracle sid frames totalTimeMs = .ok resp
      ∧ resp.results = frames.map (frameResultFor oracle)
      ∧ resp.results.length = frames.length
      ∧ resp.total_frames = frames.length
      ∧ resp.total_detections
          = (resp.results.map (fun r => r.detections.length)).sum
      ∧ (∀ f, oracle f = .decodeError →
          frameResultFor oracle f
            = { frame_number := f.frame_number, detections := [],
                inference_time_ms := 0 }) := by
  have hle : ¬ (25 < frames.length) := by omega
  unfold predict_batch
  rw [if_neg hle, predict_foldl oracle frames [] 0]
  refine ⟨_, rfl, by simp, by simp, rfl, ?_, ?_⟩
  · simp [List.map_map, Function.comp_def]
  · intro f hf
    simp [frameResultFor, hf]

/-- C9 witness: a two-frame request in which the second frame fails to
decode still succeeds, with one result per frame in order. -/
theorem c9_witness :
    1 ≤ ([fIn1, fIn2] : List FrameInput).length
    ∧ ([fIn1, fIn2] : List FrameInput).length ≤ 25
    ∧ ∃ resp, predict_batch 25 oracle0 "cam-1" [fIn1, fIn2] 9 = .ok resp
      ∧ resp.results = [fIn1, fIn2].map (frameResultFor oracle0)
      ∧ resp.results.length = ([fIn1, fIn2] : List FrameInput).length
      ∧ resp.total_frames = ([fIn1, fIn2] : List FrameInput).length
      ∧ resp.total_detections
          = (resp.results.map (fun r => r.detections.length)).sum
      ∧ (∀ f, oracle0 f = .decodeError →
          frameResultFor oracle0 f
            = { frame_number := f.frame_number, detections := [],
                inference_time_ms := 0 }) :=
  ⟨by decide, by decide,
   c9_predict_batch oracle0 "cam-1" [fIn1, fIn2] 9 (by decide) (by decide)⟩

/-- C10 (confirmed): the statistics invariant
`frames_processed = Σ_key frames_per_topic[key]` holds after any
sequence of batch completions whose successes name subscribed topics:
both sides start at zero and only the success update (which adds the
batch size to both sides inside the lock) ever changes them. -/
theorem c10_stats_invariant (topics : List String) (ops : List StatsOp)
    (hops : opsWellFormed topics ops = true) :
    (runStats (initStats topics) ops).frames_processed
      = sumPerTopic (runStats (initStats topics) ops)
    ∧ (initStats topics).frames_processed = 0
    ∧ sumPerTopic (initStats topics) = 0 := by
  refine ⟨?_, rfl, sumPerTopic_init topics⟩
  apply runStats_inv topics ops (initStats topics)
  · rw [sumPerTopic_init topics]
    rfl
  · exact initStats_keys topics
  · exact hops

/-- C10 witness: the invariant on a concrete run with two topics, two
successes and one failure. -/
theorem c10_witness :
    (runStats (initStats ["video-frames-1", "video-frames-2"])
        [StatsOp.success "video-frames-1" 25, StatsOp.failure,
         StatsOp.success "video-frames-2" 7]).frames_processed
      = sumPerTopic (runStats (initStats ["video-frames-1", "video-frames-2"])
        [StatsOp.success "video-frames-1" 25, StatsOp.failure,
         StatsOp.success "video-frames-2" 7]) :=
  (c10_stats_invariant ["video-frames-1", "video-frames-2"]
    [StatsOp.success "video-frames-1" 25, StatsOp.failure,
     StatsOp.success "video-frames-2" 7] (by decide)).1

end VideoPipeline

